import Mathlib

/-!
# Verification of the securenet secure-channel transport

Shallow embedding of `src/conn.go` (package `securenet`): the framing codec
(`Write` / `unbufferedRead`), the stream adapter (`Read` / `ReadByte` /
`UnreadByte`), key generation (`GenerateKeys`) and the handshake
(`WrapWithKeys`), together with proofs about them.

Modelling conventions:
* Bytes are `Nat`s; byte slices are `List Nat`.
* The NaCl `box` primitives (`SealAfterPrecomputation` / `OpenAfterPrecomputation`,
  from `golang.org/x/crypto/nacl/box`) and the `extra25519` elligator functions
  are external libraries, not part of this repository.  They are modelled from
  the spec's description of their interface: sealing adds a fixed 16-byte
  overhead (`box.Overhead`), opening inverts sealing under the same key and
  nonce, and opening fails by returning no plaintext.  The concrete model is a
  keyed XOR stream cipher plus a 16-byte tag, which realises exactly that
  interface; the elligator functions are kept abstract (record of functions).
* `crypto/rand` is modelled by an explicit entropy byte list (for `Write`) or
  an indexed draw sequence (for `GenerateKeys`); a successful `rand.Read` is a
  `take` from that supply.
* Go's `conn` methods use a **value receiver** (`func (c conn) ...`): every
  call operates on a copy of the struct, so assignments to the plain fields
  `buffer`, `isUnread` and `lastRead` do not survive the call.  Only data
  reachable through pointers persists — in particular the `bufio.Reader`
  (modelled as the `wire` byte list: bytes consumed from it stay consumed).
  Each operation below therefore returns the *caller-visible* connection
  state after the call: `wire` is updated, while `buffer`, `isUnread` and
  `lastRead` are returned unchanged, exactly as the Go code behaves.
* Error returns (`error` values) are modelled with `Except String`.
-/

namespace SecureNet

/-- Hash of a byte list, used only to key the modelled cipher/tag. -/
def mix (l : List Nat) : Nat :=
  l.foldl (fun a x => a * 256 + x + 1) 7

/-- Keystream byte `i` of the modelled stream cipher under `key`/`nonce`. -/
def pad (key nonce : List Nat) (i : Nat) : Nat :=
  (mix key * 37 + mix nonce * 59 + i * 101) % 256

/-- XOR a byte list against the keystream starting at index `i`
(its own inverse, length preserving). -/
def sxor (key nonce : List Nat) : Nat → List Nat → List Nat
  | _, [] => []
  | i, x :: xs => (x ^^^ pad key nonce i) :: sxor key nonce (i + 1) xs

/-- Sixteen-byte authentication tag of a ciphertext (`box.Overhead = 16`). -/
def tagBytes (key nonce ct : List Nat) : List Nat :=
  (List.range 16).map fun i => (mix key * 3 + mix nonce * 5 + mix ct * 7 + i) % 256

/-- Modelled from the spec: `box.SealAfterPrecomputation` — AEAD-seal `m`
under `nonce` and the precomputed `key`; output is `m.length + 16` bytes
(16-byte tag ‖ stream-ciphered plaintext). -/
def boxSeal (key nonce m : List Nat) : List Nat :=
  tagBytes key nonce (sxor key nonce 0 m) ++ sxor key nonce 0 m

/-- Modelled from the spec: `box.OpenAfterPrecomputation` — verify the tag and
decrypt; returns `none` (authentication failure) when the tag does not match. -/
def boxOpen (key nonce c : List Nat) : Option (List Nat) :=
  if c.length < 16 then none
  else if c.take 16 = tagBytes key nonce (c.drop 16) then
    some (sxor key nonce 0 (c.drop 16))
  else none

/-- Model of `binary.LittleEndian.PutUint32` into a 4-byte buffer; the `uint32`
conversion of the Go source (`uint32(outLen)`) truncates modulo 2³². -/
def putUint32LE (x : Nat) : List Nat :=
  [x % 256, x / 256 % 256, x / 65536 % 256, x / 16777216 % 256]

/-- Model of `binary.LittleEndian.Uint32` of the first four bytes. -/
def getUint32LE : List Nat → Nat
  | a :: b :: c :: d :: _ => a + b * 256 + c * 65536 + d * 16777216
  | _ => 0

/-- The `conn` struct of `src/conn.go`.  `wire` is the byte sequence still
unread inside the shared `bufio.Reader` (pointer-backed, so consumption
persists across calls); the remaining fields are the struct's value fields. -/
structure Conn where
  wire : List Nat
  buffer : List Nat
  isUnread : Bool
  lastRead : List Nat
  privateKey : List Nat
  PublicKey : List Nat
  ServerPublicKey : List Nat
  sharedKey : List Nat
deriving DecidableEq

/-- Model of `conn.unbufferedRead` (src/conn.go:70-118): read one frame
(nonce₁ ‖ sealed 4-byte length ‖ nonce₂ ‖ sealed payload) from the wire,
open both sub-frames, copy the plaintext into `b`.  Returns
`(n, b', wireRest, localBuffer)`: `n` is the Go return value (left at the byte
count of the last `io.ReadFull`, i.e. the ciphertext length), `b'` the
caller's slice after the copy, `wireRest` the unconsumed wire bytes, and
`localBuffer` the leftover plaintext the code stores in `c.buffer` — an
assignment to the value receiver's copy, which the caller never sees. -/
def Conn.unbufferedRead (c : Conn) (b : List Nat) :
    Except String (Nat × List Nat × List Nat × List Nat) :=
  if c.wire.length < 24 then .error "short read on nonce" else
  let nonce1 := c.wire.take 24
  let w1 := c.wire.drop 24
  if w1.length < 20 then .error "short read on header" else
  let header := w1.take 20
  let w2 := w1.drop 20
  match boxOpen c.sharedKey nonce1 header with
  | none => .error "OpenAfterPrecomputation failed on header"
  | some lengthCode =>
    let length := getUint32LE lengthCode
    if w2.length < 24 then .error "short read on nonce" else
    let nonce2 := w2.take 24
    let w3 := w2.drop 24
    if w3.length < length then .error "short read on data" else
    let data := w3.take length
    let w4 := w3.drop length
    match boxOpen c.sharedKey nonce2 data with
    | none => .error "OpenAfterPrecomputation failed on data"
    | some decrypted =>
      let copied := min b.length decrypted.length
      let b' := decrypted.take copied ++ b.drop copied
      if copied < decrypted.length then
        let buf := decrypted.drop copied
        if copied + buf.length ≠ decrypted.length then
          .error "Copied wrong amount of bytes"
        else .ok (length, b', w4, buf)
      else .ok (length, b', w4, [])

/-- Model of `conn.Read` (src/conn.go:57-68): serve from `c.buffer` first
(`copied := copy(b, c.buffer)`), then read one frame if `b` is not yet full.
The code then assigns a zeroed `newBuf` to the copy's `buffer` field and
`unbufferedRead` assigns leftover plaintext to its own copy's `buffer`; both
receivers are value copies, so the returned connection keeps the caller's
`buffer` (and `isUnread`, `lastRead`) unchanged and only `wire` — consumed
through the shared `bufio.Reader` pointer — advances.  `n` is never assigned
on the pure-buffer path, so it stays `0` there. -/
def Conn.Read (c : Conn) (b : List Nat) : Except String (Nat × List Nat × Conn) :=
  let copied := min b.length c.buffer.length
  let b1 := c.buffer.take copied ++ b.drop copied
  if copied < b.length then
    match c.unbufferedRead (b1.drop copied) with
    | .error e => .error e
    | .ok (n, b2, wire', _) => .ok (n, b1.take copied ++ b2, { c with wire := wire' })
  else
    .ok (0, b1, c)

/-- Model of `conn.ReadByte` (src/conn.go:42-50): if `isUnread` is set, return
`lastRead[0]`; otherwise read one byte through `Read` into a fresh 1-byte
`lastRead`.  The assignments `c.lastRead = make([]byte, 1)` and
`c.isUnread = false` hit the value receiver's copy only, so the
caller-visible `lastRead`/`isUnread` are unchanged after the call. -/
def Conn.ReadByte (c : Conn) : Except String (Nat × Conn) :=
  if c.isUnread then
    .ok (c.lastRead.headD 0, c)
  else
    match c.Read [0] with
    | .error e => .error e
    | .ok (_, b', c') => .ok (b'.headD 0, c')

/-- Model of `conn.UnreadByte` (src/conn.go:52-55): sets `c.isUnread = true` on the
value receiver's copy and returns `nil`; the caller's connection state is
unchanged — the call is a no-op across calls. -/
def Conn.UnreadByte (c : Conn) : Conn :=
  c

/-- Model of `conn.Write` (src/conn.go:120-149): draw nonce₁ (24 bytes of entropy),
seal the little-endian 4-byte encoding of `len(b) + box.Overhead` under it,
draw nonce₂, seal the payload, and write
nonce₁ ‖ sealed-header ‖ nonce₂ ‖ sealed-payload to the raw connection.
Successful `rand.Read`s are modelled by taking from `entropy`; the raw
`c.Conn.Write(writebuf)` is modelled as accepting all bytes, so the returned
count is `writebuf.length` — exactly what the Go method returns. -/
def Conn.Write (c : Conn) (entropy b : List Nat) : List Nat × Nat :=
  let nonce1 := entropy.take 24
  let sealedHeader := boxSeal c.sharedKey nonce1 (putUint32LE (b.length + 16))
  let nonce2 := (entropy.drop 24).take 24
  let sealedPayload := boxSeal c.sharedKey nonce2 b
  let writebuf := nonce1 ++ sealedHeader ++ nonce2 ++ sealedPayload
  (writebuf, writebuf.length)

/-- Nonce₁ field of a wire frame (bytes 0–23). -/
def wireNonce1 (w : List Nat) : List Nat := w.take 24

/-- Nonce₂ field of a wire frame (bytes 44–67: after the 24-byte nonce₁ and
the 20-byte sealed header). -/
def wireNonce2 (w : List Nat) : List Nat := (w.drop 44).take 24

/-- Modelled from the spec: the `extra25519` elligator primitives used by
`GenerateKeys`, which live outside this repository.
`ScalarBaseMult priv` returns `some (pub, representative)` when the point for
`priv` is elligator-representable and `none` otherwise;
`RepresentativeToPublicKey` is the total inverse map. -/
structure KeyGenPrim where
  ScalarBaseMult : List Nat → Option (List Nat × List Nat)
  RepresentativeToPublicKey : List Nat → List Nat

/-- Model of `GenerateKeys` (src/conn.go:151-162): loop drawing a fresh 32-byte scalar
(`entropy i` is the i-th draw; `.error` models an `io.ReadFull(rand.Reader, …)`
failure, returned immediately) until `extra25519.ScalarBaseMult` reports a
representable point.  The Go loop is unbounded; `fuel` bounds the recursion,
with `none` meaning "still looping after `fuel` draws". -/
def GenerateKeys (prim : KeyGenPrim) (entropy : Nat → Except String (List Nat)) :
    Nat → Nat → Option (Except String (List Nat × List Nat × List Nat))
  | _, 0 => none
  | i, fuel + 1 =>
    match entropy i with
    | .error e => some (.error e)
    | .ok priv =>
      match prim.ScalarBaseMult priv with
      | some (pub, elligator) => some (.ok (pub, priv, elligator))
      | none => GenerateKeys prim entropy (i + 1) fuel

/-- Modelled from the spec: the external primitives used by the handshake —
`extra25519.RepresentativeToPublicKey` (total decode of a 32-byte
representative) and `box.Precompute` (Diffie-Hellman of the peer public key
with the local private scalar, through the box key-derivation step). -/
structure HandshakePrim where
  RepresentativeToPublicKey : List Nat → List Nat
  Precompute : List Nat → List Nat → List Nat

/-- Model of `WrapWithKeys` (src/conn.go:174-204): write the local 32-byte elligator
representative to the raw stream (`writeErr` is the outcome of that raw
write; `some e` aborts immediately), then read exactly 32 bytes from the raw
stream (`inStream`; fewer than 32 available is an `io.ReadFull` failure),
decode them to the peer public key, precompute the shared channel key, and
build the connection.  Returns the bytes written to the raw stream and the
new connection. -/
def WrapWithKeys (prim : HandshakePrim) (writeErr : Option String)
    (inStream pub priv elligator : List Nat) : Except String (List Nat × Conn) :=
  match writeErr with
  | some e => .error e
  | none =>
    if inStream.length < 32 then .error "short read on representative" else
    let serverKeyElligator := inStream.take 32
    let serverKey := prim.RepresentativeToPublicKey serverKeyElligator
    let shared := prim.Precompute serverKey priv
    .ok (elligator,
      { wire := inStream.drop 32
        buffer := []
        isUnread := false
        lastRead := [0]
        privateKey := priv
        PublicKey := pub
        ServerPublicKey := serverKey
        sharedKey := shared })

/-! ## Basic facts about the modelled AEAD primitives -/

theorem sxor_length (key nonce : List Nat) : ∀ i m, (sxor key nonce i m).length = m.length
  | _, [] => rfl
  | i, _ :: xs => by simp [sxor, sxor_length key nonce (i + 1) xs]

theorem sxor_sxor (key nonce : List Nat) : ∀ i m, sxor key nonce i (sxor key nonce i m) = m
  | _, [] => rfl
  | i, x :: xs => by
    simp [sxor, sxor_sxor key nonce (i + 1) xs, Nat.xor_cancel_right]

theorem tagBytes_length (key nonce ct : List Nat) : (tagBytes key nonce ct).length = 16 := by
  simp [tagBytes]

theorem boxSeal_length (key nonce m : List Nat) :
    (boxSeal key nonce m).length = m.length + 16 := by
  simp [boxSeal, tagBytes_length, sxor_length]
  omega

theorem boxOpen_boxSeal (key nonce m : List Nat) :
    boxOpen key nonce (boxSeal key nonce m) = some m := by
  have hlen : (boxSeal key nonce m).length = m.length + 16 := boxSeal_length key nonce m
  have htag : (tagBytes key nonce (sxor key nonce 0 m)).length = 16 :=
    tagBytes_length key nonce (sxor key nonce 0 m)
  have htake : (boxSeal key nonce m).take 16 = tagBytes key nonce (sxor key nonce 0 m) := by
    unfold boxSeal
    exact List.take_left' htag
  have hdrop : (boxSeal key nonce m).drop 16 = sxor key nonce 0 m := by
    unfold boxSeal
    exact List.drop_left' htag
  rw [boxOpen, if_neg (by omega), hdrop, htake, if_pos rfl, sxor_sxor]

theorem putUint32LE_length (x : Nat) : (putUint32LE x).length = 4 := rfl

theorem getUint32LE_putUint32LE (x : Nat) : getUint32LE (putUint32LE x) = x % 4294967296 := by
  simp only [putUint32LE, getUint32LE]
  omega

/-- Decoding one well-formed frame: `unbufferedRead` on a wire that starts
with `nonce₁ ‖ seal(len(P)+16) ‖ nonce₂ ‖ seal(P)` parses exactly that frame,
returns `n` = the payload ciphertext length, fills `b` with as much of `P` as
fits, leaves `rest` on the wire, and computes the leftover plaintext that the
Go code assigns to the receiver copy's `buffer` field. -/
theorem unbufferedRead_frame (c : Conn) (n1 n2 P rest b : List Nat)
    (h1 : n1.length = 24) (h2 : n2.length = 24)
    (h32 : P.length + 16 < 4294967296)
    (hw : c.wire = n1 ++ boxSeal c.sharedKey n1 (putUint32LE (P.length + 16)) ++
      n2 ++ boxSeal c.sharedKey n2 P ++ rest) :
    c.unbufferedRead b =
      .ok (P.length + 16,
           P.take (min b.length P.length) ++ b.drop (min b.length P.length),
           rest,
           if min b.length P.length < P.length then
             P.drop (min b.length P.length) else []) := by
  have hsh : (boxSeal c.sharedKey n1 (putUint32LE (P.length + 16))).length = 20 := by
    rw [boxSeal_length, putUint32LE_length]
  have hsp : (boxSeal c.sharedKey n2 P).length = P.length + 16 :=
    boxSeal_length _ _ _
  simp only [Conn.unbufferedRead, hw, List.append_assoc,
    List.take_left' h1, List.drop_left' h1,
    List.take_left' hsh, List.drop_left' hsh,
    boxOpen_boxSeal, getUint32LE_putUint32LE, Nat.mod_eq_of_lt h32,
    List.take_left' h2, List.drop_left' h2,
    List.take_left' hsp, List.drop_left' hsp,
    List.length_append, h1, h2]
  rw [if_neg (by omega), if_neg (by omega), if_neg (by omega)]
  rw [if_neg (by rw [hsp]; omega)]
  have hdead : min b.length P.length + (List.drop (min b.length P.length) P).length
      = P.length := by
    simp only [List.length_drop]
    omega
  by_cases hc : min b.length P.length < P.length
  · rw [if_pos hc, if_neg (fun hne => hne hdead), if_pos hc]
  · rw [if_neg hc, if_neg hc]

/-! ## Concrete demonstration data -/

/-- A concrete 32-byte channel key. -/
def demoKey : List Nat := List.replicate 32 1

/-- Forty-eight bytes of entropy for one `Write` (two 24-byte nonce draws). -/
def entA : List Nat := List.range 48

/-- A second, different 48-byte entropy supply. -/
def entB : List Nat := List.replicate 48 3

/-- A freshly wrapped connection under `demoKey` whose raw stream holds
`wire`: `buffer` is the Go zero value `nil`, `isUnread` is false and
`lastRead` is `make([]byte, 1)`, as built by `WrapWithKeys`. -/
def demoConn (wire : List Nat) : Conn :=
  { wire := wire
    buffer := []
    isUnread := false
    lastRead := [0]
    privateKey := []
    PublicKey := []
    ServerPublicKey := []
    sharedKey := demoKey }

/-! ## C1: write/read round trip -/

/-- C1: encoding any plaintext `P` as one frame via `Write` under a
channel key and decoding that frame via a single `Read` with a buffer of
capacity at least `len(P)` under the same channel key yields exactly `P`
(the first `len(P)` bytes of the caller's buffer become `P`, the rest is
untouched).  Holds for every payload size with `len(P) + 16 < 2³²`, hence
for all sizes from 0 up to 2²⁰. -/
theorem write_read_roundtrip (cs c : Conn) (entropy P b : List Nat)
    (hkey : cs.sharedKey = c.sharedKey)
    (he : 48 ≤ entropy.length) (hP : P.length ≤ b.length)
    (h32 : P.length + 16 < 4294967296)
    (hbuf : c.buffer = []) (hwire : c.wire = (cs.Write entropy P).1) :
    ∃ n c', c.Read b = .ok (n, P ++ b.drop P.length, c') := by
  have hn1 : (entropy.take 24).length = 24 := by
    rw [List.length_take]
    omega
  have hn2 : ((entropy.drop 24).take 24).length = 24 := by
    rw [List.length_take, List.length_drop]
    omega
  have hwire' : c.wire = entropy.take 24 ++
      boxSeal c.sharedKey (entropy.take 24) (putUint32LE (P.length + 16)) ++
      (entropy.drop 24).take 24 ++
      boxSeal c.sharedKey ((entropy.drop 24).take 24) P ++ [] := by
    rw [hwire]
    simp only [Conn.Write, hkey, List.append_nil, List.append_assoc]
  have hur := unbufferedRead_frame c (entropy.take 24) ((entropy.drop 24).take 24)
    P [] b hn1 hn2 h32 hwire'
  rcases Nat.eq_zero_or_pos b.length with hb | hb
  · have hbnil : b = [] := List.eq_nil_of_length_eq_zero hb
    have hPnil : P = [] := List.eq_nil_of_length_eq_zero (by omega)
    exact ⟨0, c, by simp [Conn.Read, hbuf, hbnil, hPnil]⟩
  · refine ⟨P.length + 16, { c with wire := [] }, ?_⟩
    have hmin : min b.length P.length = P.length := by omega
    rw [hmin] at hur
    simp only [Conn.Read, hbuf, List.length_nil, Nat.min_zero, List.take_zero,
      List.drop_zero, List.nil_append, if_pos hb, hur, List.take_length]

/-- Witness for C1 at a concrete input: payload `[9, 8]`, 3-byte buffer. -/
theorem write_read_roundtrip_witness :
    ([9, 8] : List Nat).length ≤ ([0, 0, 0] : List Nat).length ∧
    ∃ n c', (demoConn (((demoConn []).Write entA [9, 8]).1)).Read [0, 0, 0]
      = .ok (n, [9, 8] ++ [0, 0, 0].drop 2, c') :=
  ⟨by decide,
   write_read_roundtrip (demoConn []) (demoConn (((demoConn []).Write entA [9, 8]).1))
     entA [9, 8] [0, 0, 0] rfl (by decide) (by decide) (by decide) rfl rfl⟩

/-! ## C5: wire layout of a frame -/

/-- The wire layout `Write` emits: nonce₁ ‖ sealed header ‖ nonce₂ ‖ sealed
payload, with the segment lengths 24 / 20 / 24 / `len(b)+16`, both seals
under the connection's channel key, and the sealed header carrying the
little-endian 4-byte encoding of `len(b) + 16`. -/
def frameLayout (c : Conn) (entropy b : List Nat) : Prop :=
  (c.Write entropy b).1 =
    entropy.take 24 ++
    boxSeal c.sharedKey (entropy.take 24) (putUint32LE (b.length + 16)) ++
    (entropy.drop 24).take 24 ++
    boxSeal c.sharedKey ((entropy.drop 24).take 24) b ∧
  (entropy.take 24).length = 24 ∧
  (boxSeal c.sharedKey (entropy.take 24) (putUint32LE (b.length + 16))).length = 20 ∧
  ((entropy.drop 24).take 24).length = 24 ∧
  (boxSeal c.sharedKey ((entropy.drop 24).take 24) b).length = b.length + 16 ∧
  boxOpen c.sharedKey (entropy.take 24)
      (boxSeal c.sharedKey (entropy.take 24) (putUint32LE (b.length + 16)))
    = some (putUint32LE (b.length + 16)) ∧
  getUint32LE (putUint32LE (b.length + 16)) = b.length + 16

/-- C5: `Write` emits, in order, a 24-byte nonce₁, the AEAD-sealed
length header (4-byte little-endian length plus 16 bytes overhead, 20 bytes
sealed) whose decrypted value is `len(b) + 16`, a 24-byte nonce₂, and the
AEAD-sealed payload (`len(b) + 16` bytes), both seals under the same channel
key; and `unbufferedRead` parses the frame back with the same layout and the
same endianness, recovering exactly `b`. -/
theorem write_frame_layout (cs c : Conn) (entropy b buf : List Nat)
    (hkey : cs.sharedKey = c.sharedKey)
    (he : 48 ≤ entropy.length) (h32 : b.length + 16 < 4294967296)
    (hwire : c.wire = (cs.Write entropy b).1) (hbuf : b.length ≤ buf.length) :
    frameLayout cs entropy b ∧
    c.unbufferedRead buf = .ok (b.length + 16, b ++ buf.drop b.length, [], []) := by
  have hn1 : (entropy.take 24).length = 24 := by
    rw [List.length_take]
    omega
  have hn2 : ((entropy.drop 24).take 24).length = 24 := by
    rw [List.length_take, List.length_drop]
    omega
  have hwire' : c.wire = entropy.take 24 ++
      boxSeal c.sharedKey (entropy.take 24) (putUint32LE (b.length + 16)) ++
      (entropy.drop 24).take 24 ++
      boxSeal c.sharedKey ((entropy.drop 24).take 24) b ++ [] := by
    rw [hwire]
    simp only [Conn.Write, hkey, List.append_nil, List.append_assoc]
  have hur := unbufferedRead_frame c (entropy.take 24) ((entropy.drop 24).take 24)
    b [] buf hn1 hn2 h32 hwire'
  have hmin : min buf.length b.length = b.length := by omega
  rw [hmin, if_neg (lt_irrefl b.length), List.take_length] at hur
  refine ⟨⟨?_, hn1, ?_, hn2, boxSeal_length _ _ _, boxOpen_boxSeal _ _ _, ?_⟩, hur⟩
  · simp only [Conn.Write, List.append_assoc]
  · rw [boxSeal_length, putUint32LE_length]
  · rw [getUint32LE_putUint32LE, Nat.mod_eq_of_lt h32]

/-- Witness for C5 at a concrete input: payload `[7, 7, 7]`. -/
theorem write_frame_layout_witness :
    (48 ≤ entA.length) ∧
    (frameLayout (demoConn []) entA [7, 7, 7] ∧
      (demoConn (((demoConn []).Write entA [7, 7, 7]).1)).unbufferedRead [0, 0, 0]
        = .ok (([7, 7, 7] : List Nat).length + 16, [7, 7, 7] ++ [0, 0, 0].drop 3, [], [])) :=
  ⟨by decide,
   write_frame_layout (demoConn []) (demoConn (((demoConn []).Write entA [7, 7, 7]).1))
     entA [7, 7, 7] [0, 0, 0] rfl (by decide) (by decide) rfl (by decide)⟩

/-! ## C8: nonce freshness -/

/-- C8: the two nonce fields of the emitted frame are exactly the two
successive fresh 24-byte draws from the random source (entropy bytes 0–23
and 24–47), one per sub-frame; hence within the frame nonce₁ ≠ nonce₂
whenever the two draws differ, and any nonce reuse across the session can
only come from the randomness source repeating a draw. -/
theorem write_nonces_fresh (c : Conn) (entropy b : List Nat)
    (he : 48 ≤ entropy.length) :
    wireNonce1 (c.Write entropy b).1 = entropy.take 24 ∧
    wireNonce2 (c.Write entropy b).1 = (entropy.drop 24).take 24 ∧
    (entropy.take 24 ≠ (entropy.drop 24).take 24 →
      wireNonce1 (c.Write entropy b).1 ≠ wireNonce2 (c.Write entropy b).1) := by
  have hn1 : (entropy.take 24).length = 24 := by
    rw [List.length_take]
    omega
  have hn2 : ((entropy.drop 24).take 24).length = 24 := by
    rw [List.length_take, List.length_drop]
    omega
  have h44 : (entropy.take 24 ++
      boxSeal c.sharedKey (entropy.take 24) (putUint32LE (b.length + 16))).length = 44 := by
    rw [List.length_append, hn1, boxSeal_length, putUint32LE_length]
  have hw1 : wireNonce1 (c.Write entropy b).1 = entropy.take 24 := by
    simp only [Conn.Write, wireNonce1, List.append_assoc]
    exact List.take_left' hn1
  have hw2 : wireNonce2 (c.Write entropy b).1 = (entropy.drop 24).take 24 := by
    simp only [Conn.Write, wireNonce2]
    rw [show entropy.take 24 ++
        boxSeal c.sharedKey (entropy.take 24) (putUint32LE (b.length + 16)) ++
        (entropy.drop 24).take 24 ++
        boxSeal c.sharedKey ((entropy.drop 24).take 24) b =
      (entropy.take 24 ++
        boxSeal c.sharedKey (entropy.take 24) (putUint32LE (b.length + 16))) ++
      ((entropy.drop 24).take 24 ++
        boxSeal c.sharedKey ((entropy.drop 24).take 24) b) by
        simp only [List.append_assoc]]
    rw [List.drop_left' h44]
    exact List.take_left' hn2
  exact ⟨hw1, hw2, fun hne => by rw [hw1, hw2]; exact hne⟩

/-- Witness for C8: with entropy `0,…,47` the two draws differ and so do the
frame's nonce fields. -/
theorem write_nonces_fresh_witness :
    (48 ≤ entA.length ∧ entA.take 24 ≠ (entA.drop 24).take 24) ∧
    wireNonce1 ((demoConn []).Write entA [5]).1 ≠
      wireNonce2 ((demoConn []).Write entA [5]).1 :=
  ⟨by decide,
   (write_nonces_fresh (demoConn []) entA [5] (by decide)).2.2 (by decide)⟩

/-! ## C10: Write's return count -/

/-- C10: when the random source and the raw-stream write succeed,
`Write b` returns the total number of encrypted wire bytes,
`len(b) + 84` (24 + 20 + 24 + (len(b) + 16)) — not `len(b)`, the number of
caller bytes consumed. -/
theorem write_returns_wire_count (c : Conn) (entropy b : List Nat)
    (he : 48 ≤ entropy.length) :
    (c.Write entropy b).2 = b.length + 84 ∧
    (c.Write entropy b).1.length = b.length + 84 ∧
    (c.Write entropy b).2 ≠ b.length := by
  have hlen : (c.Write entropy b).1.length = b.length + 84 := by
    simp only [Conn.Write, List.length_append, boxSeal_length, putUint32LE_length,
      List.length_take, List.length_drop]
    omega
  have hsnd : (c.Write entropy b).2 = (c.Write entropy b).1.length := rfl
  exact ⟨by rw [hsnd, hlen], hlen, by rw [hsnd, hlen]; omega⟩

/-- Witness for C10: a 2-byte payload yields a return count of 86. -/
theorem write_returns_wire_count_witness :
    (48 ≤ entA.length) ∧
    (((demoConn []).Write entA [1, 2]).2 = ([1, 2] : List Nat).length + 84 ∧
      ((demoConn []).Write entA [1, 2]).1.length = ([1, 2] : List Nat).length + 84 ∧
      ((demoConn []).Write entA [1, 2]).2 ≠ ([1, 2] : List Nat).length) :=
  ⟨by decide, write_returns_wire_count (demoConn []) entA [1, 2] (by decide)⟩

/-! ## C7: plaintext only on successful authentication of both sub-frames -/

/-- C7: whenever `unbufferedRead` returns plaintext, the AEAD open
succeeded on both the sealed header and the sealed payload under the channel
key, and the delivered bytes are exactly (a prefix of) the opened payload;
contrapositively, if authentication fails on either sub-frame the call
returns an error and never returns plaintext from that frame. -/
theorem unbufferedRead_requires_auth (c : Conn) (b : List Nat)
    (n : Nat) (b' w' pend : List Nat)
    (h : c.unbufferedRead b = .ok (n, b', w', pend)) :
    ∃ lengthCode pt,
      boxOpen c.sharedKey (c.wire.take 24) ((c.wire.drop 24).take 20)
        = some lengthCode ∧
      boxOpen c.sharedKey (((c.wire.drop 24).drop 20).take 24)
          ((((c.wire.drop 24).drop 20).drop 24).take (getUint32LE lengthCode))
        = some pt ∧
      b' = pt.take (min b.length pt.length) ++ b.drop (min b.length pt.length) := by
  simp only [Conn.unbufferedRead] at h
  split at h
  · exact Except.noConfusion h
  split at h
  · exact Except.noConfusion h
  split at h
  · exact Except.noConfusion h
  next lengthCode hlc =>
    split at h
    · exact Except.noConfusion h
    split at h
    · exact Except.noConfusion h
    split at h
    · exact Except.noConfusion h
    next pt hpt =>
      refine ⟨lengthCode, pt, hlc, hpt, ?_⟩
      split at h
      · split at h
        · exact Except.noConfusion h
        · simp only [Except.ok.injEq, Prod.mk.injEq] at h
          exact h.2.1.symm
      · simp only [Except.ok.injEq, Prod.mk.injEq] at h
        exact h.2.1.symm

/-- Witness for C7: a well-formed frame for payload `[5]` decodes, and the
theorem exhibits the two successful opens behind it. -/
theorem unbufferedRead_requires_auth_witness :
    (demoConn (((demoConn []).Write entA [5]).1)).unbufferedRead [0]
      = .ok (17, [5], [], []) ∧
    ∃ lengthCode pt,
      boxOpen (demoConn (((demoConn []).Write entA [5]).1)).sharedKey
          ((demoConn (((demoConn []).Write entA [5]).1)).wire.take 24)
          (((demoConn (((demoConn []).Write entA [5]).1)).wire.drop 24).take 20)
        = some lengthCode ∧
      boxOpen (demoConn (((demoConn []).Write entA [5]).1)).sharedKey
          ((((demoConn (((demoConn []).Write entA [5]).1)).wire.drop 24).drop 20).take 24)
          (((((demoConn (((demoConn []).Write entA [5]).1)).wire.drop 24).drop 20).drop 24).take
            (getUint32LE lengthCode))
        = some pt ∧
      ([5] : List Nat) = pt.take (min ([0] : List Nat).length pt.length) ++
        ([0] : List Nat).drop (min ([0] : List Nat).length pt.length) :=
  ⟨rfl,
   unbufferedRead_requires_auth (demoConn (((demoConn []).Write entA [5]).1)) [0]
     17 [5] [] [] rfl⟩

/-! ## C2/C3/C4: value-receiver state loss and the Read count -/

/-- A connection holding one frame that encodes the payload `[1, 2]`. -/
def st12 : Conn := demoConn (((demoConn []).Write entA [1, 2]).1)

/-- Evaluation for C2: read `[1, 2]` through two 1-byte `Read`s.  Records the
bytes delivered by the first call, the pending buffer the caller's
connection holds after it, and whether the second call fails. -/
def pendingRun : Option (List Nat × List Nat × Bool) :=
  match st12.Read [0] with
  | .ok (_, b1, c1) =>
    some (b1, c1.buffer,
      match c1.Read [0] with
      | .error _ => true
      | .ok _ => false)
  | .error _ => none

set_option maxRecDepth 100000 in
/-- C2 evaluation: the first 1-byte `Read` of the 2-byte message returns
byte `1`, but the leftover plaintext byte `2` is *not* stored in the pending
buffer (the value-receiver assignment is lost), so the second `Read` finds
an empty wire and fails: the remaining bytes are lost, not delivered. -/
theorem read_pending_bytes_lost : pendingRun = some ([1], [], true) := rfl

/-- Two frames on the wire: payload `[5]`, then payload `[7]`. -/
def st57 : Conn :=
  demoConn ((((demoConn []).Write entA [5]).1) ++ (((demoConn []).Write entB [7]).1))

/-- Evaluation for C3: `ReadByte`, then `UnreadByte`, then `ReadByte`. -/
def unreadRun : Option (Nat × Nat) :=
  match st57.ReadByte with
  | .ok (b1, c1) =>
    match c1.UnreadByte.ReadByte with
    | .ok (b2, _) => some (b1, b2)
    | .error _ => none
  | .error _ => none

set_option maxRecDepth 100000 in
/-- C3 evaluation: after `ReadByte` returns `5`, `UnreadByte` fails to
set the pushback flag (value receiver), so the next `ReadByte` does not
repeat `5`: it consumes the next frame and returns `7`. -/
theorem readByte_after_unread_not_same :
    unreadRun = some (5, 7) ∧ (5 : Nat) ≠ 7 := ⟨rfl, by decide⟩

/-- A connection whose pending buffer already holds `[4, 5]` (such a state is
what the spec's pending-buffer semantics would produce). -/
def bufConn : Conn := { demoConn [] with buffer := [4, 5] }

/-- Evaluation for C4: a frame-decoding `Read` and a pure-buffer `Read`. -/
def countRun : Option (Nat × List Nat) :=
  match st12.Read [0, 0] with
  | .ok (n, b', _) => some (n, b')
  | .error _ => none

set_option maxRecDepth 100000 in
/-- C4 evaluation: `Read` with a 2-byte buffer on a frame carrying
`[1, 2]` copies 2 plaintext bytes into the buffer but returns `n = 18` — the
payload *ciphertext* length left in `n` by the last `io.ReadFull` — and a
`Read` wholly satisfied from the pending buffer returns `n = 0`, because `n`
is never assigned on that path. -/
theorem read_count_mismatch :
    (countRun = some (18, [1, 2]) ∧ (18 : Nat) ≠ 2) ∧
    bufConn.Read [0] = .ok (0, [4], bufConn) := ⟨⟨rfl, by decide⟩, rfl⟩

/-! ## C6: the handshake -/

/-- C6: `WrapWithKeys` first writes the local 32-byte representative to
the raw stream (a write failure aborts with that error and no connection),
then reads exactly 32 bytes as the peer's representative (failing when fewer
arrive), decodes it to the peer public key via the elligator inverse map,
derives the channel key by Diffie-Hellman precomputation from the local
private scalar and the decoded peer key, and returns the connection built
from them. -/
theorem wrapWithKeys_spec (prim : HandshakePrim) (writeErr : Option String)
    (inStream pub priv elligator : List Nat) :
    (∀ e, writeErr = some e →
      WrapWithKeys prim writeErr inStream pub priv elligator = .error e) ∧
    (writeErr = none → inStream.length < 32 →
      WrapWithKeys prim writeErr inStream pub priv elligator
        = .error "short read on representative") ∧
    (writeErr = none → 32 ≤ inStream.length →
      WrapWithKeys prim writeErr inStream pub priv elligator =
        .ok (elligator,
          { wire := inStream.drop 32
            buffer := []
            isUnread := false
            lastRead := [0]
            privateKey := priv
            PublicKey := pub
            ServerPublicKey := prim.RepresentativeToPublicKey (inStream.take 32)
            sharedKey := prim.Precompute
              (prim.RepresentativeToPublicKey (inStream.take 32)) priv })) := by
  refine ⟨?_, ?_, ?_⟩
  · intro e he
    subst he
    rfl
  · intro hn hl
    subst hn
    simp only [WrapWithKeys, if_pos hl]
  · intro hn hl
    subst hn
    simp only [WrapWithKeys, if_neg (by omega : ¬inStream.length < 32)]

/-- A concrete instance of the handshake's external primitives. -/
def hsPrim : HandshakePrim :=
  { RepresentativeToPublicKey := fun r => r.map (· + 1)
    Precompute := fun p s => p ++ s }

/-- Witness for C6: a successful handshake over a 40-byte incoming stream. -/
theorem wrapWithKeys_spec_witness :
    (32 ≤ (List.range 40).length) ∧
    WrapWithKeys hsPrim none (List.range 40) [1] [2] [3] =
      .ok ([3],
        { wire := (List.range 40).drop 32
          buffer := []
          isUnread := false
          lastRead := [0]
          privateKey := [2]
          PublicKey := [1]
          ServerPublicKey := hsPrim.RepresentativeToPublicKey ((List.range 40).take 32)
          sharedKey := hsPrim.Precompute
            (hsPrim.RepresentativeToPublicKey ((List.range 40).take 32)) [2] }) :=
  ⟨by decide,
   (wrapWithKeys_spec hsPrim none (List.range 40) [1] [2] [3]).2.2 rfl (by decide)⟩

/-! ## C9: key generation -/

/-- Skipping over non-representable draws: while every draw before index
`k + i` succeeds but is not representable, running the loop with `i` extra
units of fuel lands at index `k + i`. -/
theorem generateKeys_skip (prim : KeyGenPrim)
    (entropy : Nat → Except String (List Nat)) (i : Nat) :
    ∀ k, (∀ j, j < i → ∃ sj, entropy (k + j) = .ok sj ∧
        prim.ScalarBaseMult sj = none) →
    GenerateKeys prim entropy k (i + 1) = GenerateKeys prim entropy (k + i) 1 := by
  induction i with
  | zero => intro k _; rfl
  | succ m ih =>
    intro k hb
    obtain ⟨s0, hs0, hn0⟩ := hb 0 (by omega)
    have hs0' : entropy k = .ok s0 := by simpa using hs0
    have step : GenerateKeys prim entropy k (m + 1 + 1)
        = GenerateKeys prim entropy (k + 1) (m + 1) := by
      simp only [GenerateKeys, hs0', hn0]
    have hb' : ∀ j, j < m → ∃ sj, entropy ((k + 1) + j) = .ok sj ∧
        prim.ScalarBaseMult sj = none := by
      intro j hj
      obtain ⟨sj, h1, h2⟩ := hb (j + 1) (by omega)
      refine ⟨sj, ?_, h2⟩
      rw [show k + 1 + j = k + (j + 1) by omega]
      exact h1
    rw [step, ih (k + 1) hb', show k + 1 + m = k + (m + 1) by omega]

/-- C9: `GenerateKeys` draws fresh scalars until one is
elligator-representable.  Under the precondition that draws `0, …, i-1`
succeed but are not representable (and that the elligator primitives satisfy
the decode round trip the spec states), the loop terminates at draw `i`:
an entropy failure there is returned immediately as the fatal error, and a
representable scalar there yields, within `i + 1` iterations, a key triple
whose representative decodes back to the returned public point. -/
theorem generateKeys_spec (prim : KeyGenPrim)
    (entropy : Nat → Except String (List Nat))
    (hround : ∀ priv pub rep, prim.ScalarBaseMult priv = some (pub, rep) →
      prim.RepresentativeToPublicKey rep = pub)
    (i : Nat)
    (hbefore : ∀ j, j < i → ∃ sj, entropy j = .ok sj ∧
      prim.ScalarBaseMult sj = none) :
    (∀ e, entropy i = .error e →
      GenerateKeys prim entropy 0 (i + 1) = some (.error e)) ∧
    (∀ s pub rep, entropy i = .ok s → prim.ScalarBaseMult s = some (pub, rep) →
      GenerateKeys prim entropy 0 (i + 1) = some (.ok (pub, s, rep)) ∧
        prim.RepresentativeToPublicKey rep = pub) := by
  have hskip : GenerateKeys prim entropy 0 (i + 1) = GenerateKeys prim entropy i 1 := by
    have := generateKeys_skip prim entropy i 0 (by
      intro j hj
      simpa using hbefore j hj)
    simpa using this
  constructor
  · intro e he
    rw [hskip]
    simp only [GenerateKeys, he]
  · intro s pub rep hs hrep
    refine ⟨?_, hround s pub rep hrep⟩
    rw [hskip]
    simp only [GenerateKeys, hs, hrep]

/-- A concrete instance of the elligator primitives satisfying the spec's
decode round trip: scalars with even sum are representable, the
representative prepends a `0`, decoding drops it. -/
def toyPrim : KeyGenPrim :=
  { ScalarBaseMult := fun s =>
      if s.foldl (· + ·) 0 % 2 = 0 then some (s, 0 :: s) else none
    RepresentativeToPublicKey := fun r => r.drop 1 }

/-- The instance `toyPrim` satisfies the decode round trip. -/
theorem toyPrim_round : ∀ priv pub rep,
    toyPrim.ScalarBaseMult priv = some (pub, rep) →
    toyPrim.RepresentativeToPublicKey rep = pub := by
  intro priv pub rep h
  simp only [toyPrim] at h ⊢
  split at h
  · simp only [Option.some.injEq, Prod.mk.injEq] at h
    rw [← h.1, ← h.2]
    rfl
  · exact Option.noConfusion h

/-- Entropy draws for the witness: draw `j` yields the scalar `[j + 1]`. -/
def toyEntropy : Nat → Except String (List Nat) := fun j => .ok [j + 1]

/-- Witness for C9: draw 0 (`[1]`, odd sum) is not representable, draw 1
(`[2]`) is; the loop returns `([2], [2], [0, 2])` and the representative
decodes back to the public point. -/
theorem generateKeys_spec_witness :
    GenerateKeys toyPrim toyEntropy 0 2 = some (.ok ([2], [2], [0, 2])) ∧
    toyPrim.RepresentativeToPublicKey [0, 2] = [2] := by
  have hb : ∀ j, j < 1 → ∃ sj, toyEntropy j = .ok sj ∧
      toyPrim.ScalarBaseMult sj = none := by
    intro j hj
    have hj0 : j = 0 := by omega
    subst hj0
    exact ⟨[1], rfl, by decide⟩
  exact (generateKeys_spec toyPrim toyEntropy toyPrim_round 1 hb).2
    [2] [2] [0, 2] rfl (by decide)

end SecureNet
